import Mathlib

/-!
Verification development for the llm-docs-generator repository.

The definitions below are a shallow embedding of the TypeScript sources:
  * `src/core/models.ts`               — the DocNode / ContentBlock IR and the OpenRef records
  * `src/core/universal-formatter.ts`  — the renderer (UniversalFormatter)
  * `src/parsers/openref/adapter.ts`   — the specification-list adapter
  * `src/parsers/markdown/adapter.ts`  — the heading-tree adapter
  * `src/parsers/markdown/parser.ts`   — MarkdownParser.buildSections

JavaScript `Map<string, _>` values are embedded as association lists; since a
JS map never holds two entries with the same key, lookup is modelled with a
last-entry-wins rule (`jsMapGet`), matching `new Map(entries)` construction.
JavaScript string truthiness tests (`if (s)`, `a || b`) are embedded by
explicit emptiness tests (`jsOrStr`).  File writes are embedded as
(path, contents) pairs; the date produced by `toLocaleDateString` is threaded
through as an explicit string parameter.
-/

set_option linter.unusedVariables false
set_option linter.unreachableTactic false
set_option linter.unusedTactic false
set_option linter.unnecessarySeqFocus false

-- ============================================================================
-- JavaScript-semantics helpers
-- ============================================================================

/-- Embeds the JS idiom `x || dflt` for an optional / possibly-empty string:
`undefined` and the empty string are falsy. -/
def jsOrStr : Option String → String → String
  | some s, d => if s = "" then d else s
  | none, d => d

/-- Lookup in an association list embedding a JS `Map`: the last entry for a
key wins, matching `new Map(entries)` where later entries overwrite earlier
ones. -/
def jsMapGet {β : Type} : List (String × β) → String → Option β
  | [], _ => none
  | (k, v) :: rest, key =>
    match jsMapGet rest key with
    | some r => some r
    | none => if k = key then some v else none

/-- Contiguous-occurrence test on character lists. -/
def listIsInfixOf (pat : List Char) : List Char → Bool
  | [] => pat.isEmpty
  | a :: rest => pat.isPrefixOf (a :: rest) || listIsInfixOf pat rest

/-- Embeds `String.prototype.includes`: substring occurrence, decided on the
underlying character lists. -/
def strIncludes (s pat : String) : Bool :=
  listIsInfixOf pat.data s.data

-- ============================================================================
-- IR data model (src/core/models.ts)
-- ============================================================================

/-- `ContentBlockType` from `src/core/models.ts`. -/
inductive ContentBlockType where
  | PROSE | CODE | DATA
deriving DecidableEq, Repr

/-- Values stored in the `unknown`-typed metadata maps of the IR; the
sources only ever store strings, numbers and booleans there. -/
inductive MetaVal where
  | str (s : String)
  | num (n : Nat)
  | bool (b : Bool)
deriving DecidableEq, Repr

/-- JS truthiness of a metadata value. -/
def MetaVal.truthy : MetaVal → Bool
  | .str s => s ≠ ""
  | .num n => n ≠ 0
  | .bool b => b

/-- JS template-literal interpolation of a metadata value. -/
def MetaVal.display : MetaVal → String
  | .str s => s
  | .num n => toString n
  | .bool b => if b then "true" else "false"

/-- Embeds `metadata.get(key) || dflt` followed by template interpolation. -/
def metaOr (v : Option MetaVal) (d : String) : String :=
  match v with
  | some m => if m.truthy then m.display else d
  | none => d

/-- `ContentBlock` from `src/core/models.ts`. -/
structure ContentBlock where
  type : ContentBlockType
  language : Option String
  content : String
  annotations : Option (List (String × String))
deriving DecidableEq, Repr

/-- `createContentBlock` from `src/core/models.ts`. -/
def createContentBlock (type : ContentBlockType) (content : String)
    (language : Option String := none)
    (annotations : Option (List (String × String)) := none) : ContentBlock :=
  { type := type, content := content, language := language, annotations := annotations }

/-- `DocNodeType` from `src/core/models.ts`.  The spec names these kinds
ROOT, GROUP, SECTION, ENTRY, DETAIL; the code names them
ROOT, CATEGORY, SECTION, OPERATION, ITEM. -/
inductive DocNodeType where
  | ROOT | CATEGORY | SECTION | OPERATION | ITEM
deriving DecidableEq, Repr

/-- `DocNode` from `src/core/models.ts` (a tree with list-valued children). -/
inductive DocNode where
  | mk (type : DocNodeType) (id : String) (title : String) (description : String)
      (content : List ContentBlock) (children : List DocNode)
      (metadata : List (String × MetaVal)) : DocNode

def DocNode.type : DocNode → DocNodeType
  | .mk t _ _ _ _ _ _ => t

def DocNode.id : DocNode → String
  | .mk _ i _ _ _ _ _ => i

def DocNode.title : DocNode → String
  | .mk _ _ ti _ _ _ _ => ti

def DocNode.description : DocNode → String
  | .mk _ _ _ d _ _ _ => d

def DocNode.content : DocNode → List ContentBlock
  | .mk _ _ _ _ c _ _ => c

def DocNode.children : DocNode → List DocNode
  | .mk _ _ _ _ _ ch _ => ch

def DocNode.metadata : DocNode → List (String × MetaVal)
  | .mk _ _ _ _ _ _ m => m

-- ============================================================================
-- Renderer (src/core/universal-formatter.ts)
-- ============================================================================

/-- `FormatterOptions` from `src/core/universal-formatter.ts`
(`prefixName` embeds the `filenamePrefix` field). -/
structure FormatterOptions where
  outputDir : String
  prefixName : Option String
  title : Option String
  systemPrompt : Option String
  includeMetadata : Option Bool
deriving Repr

/-- `UniversalFormatter.getHeading`: `'#'.repeat(Math.min(depth + 1, 4))`. -/
def getHeading (_ty : DocNodeType) (depth : Nat) : String :=
  String.mk (List.replicate (min (depth + 1) 4) '#')

/-- `numbers.join('.')` over decimal renderings, as in `formatNode`. -/
def numberString (nums : List Nat) : String :=
  String.intercalate "." (nums.map toString)

/-- `UniversalFormatter.formatContent`. -/
def formatContent (c : ContentBlock) : String :=
  match c.type with
  | .PROSE => c.content ++ "\n\n"
  | .CODE =>
      let lang := jsOrStr c.language "text"
      "```" ++ lang ++ "\n" ++ c.content ++ "\n" ++ "```" ++ "\n\n"
  | .DATA =>
      let dataType := jsOrStr (c.annotations.bind (fun a => jsMapGet a "type")) "data"
      "\n" ++ "// " ++ dataType ++ "\n" ++ "/*" ++ "\n" ++ c.content ++ "\n" ++ "*/" ++ "\n" ++ "\n"

mutual

/-- `UniversalFormatter.formatNode`: ROOT nodes emit no heading and give each
child the fresh path `[childNum]`; every other node emits
`heading number. title` and passes `numbers ++ [childNum]` to its children. -/
def formatNode : DocNode → List Nat → String
  | .mk t id title desc content children md, nums =>
    if t = DocNodeType.ROOT then
      formatChildren children [] 1
    else
      getHeading t nums.length ++ " " ++ numberString nums ++ ". " ++ title ++ "\n\n"
        ++ (if desc ≠ "" then desc ++ "\n\n" else "")
        ++ String.join (content.map formatContent)
        ++ formatChildren children nums 1

/-- The child loop of `formatNode`: child `i` (0-based, counter starting at
`k`) is formatted with number path `nums ++ [k + i]`. -/
def formatChildren : List DocNode → List Nat → Nat → String
  | [], _, _ => ""
  | c :: rest, nums, k => formatNode c (nums ++ [k]) ++ formatChildren rest nums (k + 1)

end

/-- `UniversalFormatter.generateHeader`; `date` is the string produced by
`toLocaleDateString` at render time. -/
def generateHeader (root : DocNode) (opts : FormatterOptions) (date : String) : String :=
  let title := jsOrStr opts.title root.title
  let sys := jsOrStr opts.systemPrompt
    ("This is the complete developer documentation for " ++ title ++ ".")
  "<SYSTEM>" ++ sys ++ "</SYSTEM>" ++ "\n\n"
    ++ (if opts.includeMetadata ≠ some false then
          let format := metaOr (jsMapGet root.metadata "format") "unknown"
          "<!-- Format: " ++ format ++ ", Generated: " ++ date ++ " -->" ++ "\n\n"
        else "")
    ++ "# " ++ title ++ "\n\n"

/-- `UniversalFormatter.generateCategoryHeader`. -/
def generateCategoryHeader (root : DocNode) (opts : FormatterOptions) (category : DocNode) : String :=
  let title := jsOrStr opts.title root.title
  "<SYSTEM>" ++ "This is the developer documentation for " ++ title ++ " - "
      ++ category.title ++ "." ++ "</SYSTEM>" ++ "\n\n"
    ++ "# " ++ title ++ " " ++ category.title ++ " Documentation" ++ "\n\n"
    ++ (if category.description ≠ "" then category.description ++ "\n\n" else "")

/-- Contents of one modular (per-category) file:
`generateCategoryHeader` followed by `formatNode(category, [])`. -/
def modularFileContent (root : DocNode) (opts : FormatterOptions) (category : DocNode) : String :=
  generateCategoryHeader root opts category ++ formatNode category []

/-- `UniversalFormatter.generateModularDocs`, embedded as the list of
(filepath, contents) pairs it writes. -/
def generateModularDocs (root : DocNode) (opts : FormatterOptions) : List (String × String) :=
  let categories := root.children.filter (fun c => c.type = DocNodeType.CATEGORY)
  if categories.length = 0 then []
  else
    categories.map (fun category =>
      (opts.outputDir ++ "/" ++ jsOrStr opts.prefixName "documentation"
          ++ "-" ++ category.id ++ "-llms.txt",
       modularFileContent root opts category))

/-- The assembled full-document text of `UniversalFormatter.generateFullDoc`:
header followed by `formatNode(root, [])`. -/
def generateFullDocContent (root : DocNode) (opts : FormatterOptions) (date : String) : String :=
  generateHeader root opts date ++ formatNode root []

/-- `Readable.from([content])`: the chunk list fed to the streamed write. -/
def streamChunksOf (content : String) : List String := [content]

/-- `UniversalFormatter.writeFileStream`: the bytes reaching the file are the
concatenation of the streamed chunks. -/
def writeFileStreamBytes (content : String) : String :=
  String.join (streamChunksOf content)

/-- The streaming threshold of `generateFullDoc`: 10 MiB. -/
def STREAM_THRESHOLD : Nat := 10 * 1024 * 1024

/-- The bytes `generateFullDoc` writes, with the size threshold as a
parameter: above it the streamed path is taken, otherwise the single
buffered `writeFile`. -/
def generateFullDocBytes (root : DocNode) (opts : FormatterOptions) (date : String)
    (threshold : Nat) : String :=
  let content := generateFullDocContent root opts date
  if content.length > threshold then writeFileStreamBytes content else content

/-- `generateFullDoc` as shipped: the fixed 10 MiB threshold. -/
def generateFullDoc (root : DocNode) (opts : FormatterOptions) (date : String) : String :=
  generateFullDocBytes root opts date STREAM_THRESHOLD

-- ============================================================================
-- OpenRef records (src/core/models.ts, legacy section)
-- ============================================================================

/-- `Example` from `src/core/models.ts` (Zod defaults: description, dataSql
and response default to the empty string). -/
structure Example where
  id : String
  name : String
  code : String
  description : String
  dataSql : String
  response : String
  isSpotlight : Bool
deriving DecidableEq, Repr

/-- `Operation` from `src/core/models.ts` (overwriteParams is never read by
the adapter and is omitted). -/
structure Operation where
  id : String
  title : String
  description : String
  notes : String
  examples : List Example
deriving DecidableEq, Repr

/-- `SpecInfo` from `src/core/models.ts` (slugPrefix and libraries are never
read by the adapter and are omitted). -/
structure SpecInfo where
  id : String
  title : String
  description : String
  specUrl : Option String
deriving Repr

/-- `SpecData` from `src/core/models.ts`; `opMapCache` embeds the optional
`_operationMap` cache consulted by `convertWithCategories`. -/
structure SpecData where
  info : SpecInfo
  operations : List Operation
  opMapCache : Option (List (String × Operation))
deriving Repr

/-- `new Map(ops.map(op => [op.id, op]))` — the id → operation lookup list. -/
def buildOperationMap (ops : List Operation) : List (String × Operation) :=
  ops.map (fun op => (op.id, op))

-- ============================================================================
-- Specification-list adapter (src/parsers/openref/adapter.ts)
-- ============================================================================

/-- `inferLanguage` from `src/parsers/openref/adapter.ts`, with JS operator
precedence (`&&` binds tighter than `||`) preserved. -/
def inferLanguage (code : String) : String :=
  if strIncludes code "const " || strIncludes code "let " || strIncludes code "async " then
    "javascript"
  else if strIncludes code "func " || (strIncludes code "let " && strIncludes code ":") then
    "swift"
  else if strIncludes code "def " || (strIncludes code "import " && strIncludes code "from ") then
    "python"
  else if strIncludes code "public class" || strIncludes code "private val" then
    "kotlin"
  else if (strIncludes code "class " && strIncludes code "\x7b") || strIncludes code "using " then
    "csharp"
  else if strIncludes code "void " || strIncludes code "Future<" then
    "dart"
  else
    "code"

/-- `convertExample` from `src/parsers/openref/adapter.ts`: the sequence of
conditional `content.push` calls becomes a concatenation of conditional
singleton lists. -/
def convertExample (ex : Example) : DocNode :=
  let metadata : List (String × MetaVal) :=
    [("exampleId", .str ex.id), ("isSpotlight", .bool ex.isSpotlight)]
  let content : List ContentBlock :=
    (if ex.description ≠ "" then
      [createContentBlock ContentBlockType.PROSE ex.description] else [])
    ++ (if ex.code ≠ "" then
      [createContentBlock ContentBlockType.CODE ex.code (some (inferLanguage ex.code))] else [])
    ++ (if ex.dataSql ≠ "" then
      [createContentBlock ContentBlockType.DATA ex.dataSql (some "sql")
        (some [("type", "schema")])] else [])
    ++ (if ex.response ≠ "" then
      [createContentBlock ContentBlockType.DATA ex.response (some "json")
        (some [("type", "response")])] else [])
  DocNode.mk DocNodeType.ITEM ex.id ex.name ex.description content [] metadata

/-- `convertOperation` from `src/parsers/openref/adapter.ts`. -/
def convertOperation (operation : Operation) : DocNode :=
  let metadata : List (String × MetaVal) :=
    [("operationId", .str operation.id), ("notes", .str operation.notes)]
  let children := operation.examples.map convertExample
  let content : List ContentBlock :=
    (if operation.description ≠ "" then
      [createContentBlock ContentBlockType.PROSE operation.description] else [])
    ++ (if operation.notes ≠ "" then
      [createContentBlock ContentBlockType.PROSE operation.notes] else [])
  DocNode.mk DocNodeType.OPERATION operation.id operation.title operation.description
    content children metadata

/-- The inner id-collection loop of `convertWithCategories`: look each id up
in the operation map, keeping only the hits. -/
def collectOps (opMap : List (String × Operation)) : List String → List Operation
  | [] => []
  | opId :: rest =>
    match jsMapGet opMap opId with
    | some op => op :: collectOps opMap rest
    | none => collectOps opMap rest

/-- The category loop of `convertWithCategories`: a category whose id list
resolves to zero operations is skipped (`continue`), otherwise a CATEGORY
node is produced. -/
def convertCategoriesLoop (opMap : List (String × Operation)) :
    List (String × List String) → List DocNode
  | [] => []
  | (categoryName, operationIds) :: rest =>
    let operations := collectOps opMap operationIds
    if operations.length = 0 then
      convertCategoriesLoop opMap rest
    else
      DocNode.mk DocNodeType.CATEGORY categoryName categoryName ""
          [] (operations.map convertOperation) []
        :: convertCategoriesLoop opMap rest

/-- `convertWithCategories` from `src/parsers/openref/adapter.ts`; the
operation map is `specData._operationMap ?? new Map(...)`. -/
def convertWithCategories (specData : SpecData)
    (categoryMap : List (String × List String)) : List DocNode :=
  let operationMap := specData.opMapCache.getD (buildOperationMap specData.operations)
  convertCategoriesLoop operationMap categoryMap

-- ============================================================================
-- Markdown parser structures (src/parsers/markdown/parser.ts)
-- ============================================================================

/-- The `type` discriminator of `MarkdownContent`. -/
inductive MdContentType where
  | prose | code | image | blockquote
deriving DecidableEq, Repr

/-- `MarkdownContent` from `src/parsers/markdown/parser.ts` (its optional
`metadata` field is never written nor read and is omitted). -/
structure MdContent where
  type : MdContentType
  content : String
  language : Option String
deriving DecidableEq, Repr

/-- `MarkdownSection` from `src/parsers/markdown/parser.ts` (a tree with
list-valued children). -/
inductive MarkdownSection where
  | mk (level : Nat) (title : String) (id : String)
      (content : List MdContent) (children : List MarkdownSection) : MarkdownSection

def MarkdownSection.level : MarkdownSection → Nat
  | .mk l _ _ _ _ => l

def MarkdownSection.title : MarkdownSection → String
  | .mk _ t _ _ _ => t

def MarkdownSection.sid : MarkdownSection → String
  | .mk _ _ i _ _ => i

def MarkdownSection.content : MarkdownSection → List MdContent
  | .mk _ _ _ c _ => c

def MarkdownSection.children : MarkdownSection → List MarkdownSection
  | .mk _ _ _ _ ch => ch

-- ============================================================================
-- Heading-tree adapter (src/parsers/markdown/adapter.ts)
-- ============================================================================

/-- `convertContent` from `src/parsers/markdown/adapter.ts`. -/
def convertContent (c : MdContent) : ContentBlock :=
  match c.type with
  | .code =>
      createContentBlock ContentBlockType.CODE c.content (some (jsOrStr c.language "text"))
  | .prose =>
      createContentBlock ContentBlockType.PROSE c.content
  | .blockquote =>
      createContentBlock ContentBlockType.PROSE c.content none (some [("style", "blockquote")])
  | .image =>
      createContentBlock ContentBlockType.DATA c.content none (some [("type", "image")])

mutual

/-- `convertSection` from `src/parsers/markdown/adapter.ts`: the heading
level picks the node type, content blocks and children are converted
recursively, and the heading level is recorded in the node metadata. -/
def convertSection (sec : MarkdownSection) (mapH2ToCategory : Bool) : DocNode :=
  match sec with
  | .mk level title id content children =>
    let nodeType :=
      if level = 2 ∧ mapH2ToCategory then DocNodeType.CATEGORY
      else if level = 3 then DocNodeType.OPERATION
      else if level ≥ 4 then DocNodeType.ITEM
      else DocNodeType.SECTION
    DocNode.mk nodeType id title "" (content.map convertContent)
      (convertSectionList children mapH2ToCategory) [("level", .num level)]

/-- The `section.children.map` loop of `convertSection`. -/
def convertSectionList : List MarkdownSection → Bool → List DocNode
  | [], _ => []
  | s :: rest, b => convertSection s b :: convertSectionList rest b

end

-- ============================================================================
-- MarkdownParser.buildSections (src/parsers/markdown/parser.ts)
--
-- The imperative loop mutates section objects that sit simultaneously on the
-- working stack and inside their parent's `children` array.  The embedding
-- passes the state explicitly: a stack of still-open frames (head = top of
-- stack); a frame is attached to its parent's children — or to the root
-- list — at the moment it is popped, which yields the same trees in the
-- same order as attach-at-creation followed by in-place mutation.
-- ============================================================================

/-- The tokens produced by `marked.lexer` as consumed by `buildSections`:
a heading with its depth, or one of the non-heading token shapes read by
`tokenToContent`.  `other` carries the resolved `token.text || token.raw`
of the default branch. -/
inductive MdToken where
  | heading (depth : Nat) (text : String)
  | code (text : String) (lang : Option String)
  | paragraph (text : String)
  | text (text : String)
  | blockquote (text : String)
  | space
  | other (text : String)
deriving DecidableEq, Repr

/-- `MarkdownParser.tokenToContent`. -/
def tokenToContent : MdToken → Option MdContent
  | .heading _ _ => none
  | .code text lang => some ⟨.code, text, some (jsOrStr lang "text")⟩
  | .paragraph text => some ⟨.prose, text, none⟩
  | .text text => some ⟨.prose, text, none⟩
  | .blockquote text => some ⟨.blockquote, text, none⟩
  | .space => none
  | .other text => if text.trim ≠ "" then some ⟨.prose, text, none⟩ else none

def MdToken.isHeading : MdToken → Bool
  | .heading _ _ => true
  | _ => false

/-- One maximal run of characters satisfying `p` collapses to the single
character `rep`; embeds `replace(/p+/g, rep)`. -/
def collapseRuns (p : Char → Bool) (rep : Char) : List Char → List Char
  | [] => []
  | [c] => if p c then [rep] else [c]
  | c :: d :: rest =>
    if p c && p d then collapseRuns p rep (d :: rest)
    else (if p c then rep else c) :: collapseRuns p rep (d :: rest)

/-- `\w` of the JS regexes in `slugify`. -/
def isWordChar (c : Char) : Bool :=
  c.isAlphanum || c = '_'

/-- `MarkdownParser.slugify`: lower-case, drop characters that are not word
characters, whitespace or hyphens, collapse whitespace runs to `-`, collapse
hyphen runs, trim. -/
def slugify (text : String) : String :=
  let lowered := (text.toLower).data
  let kept := lowered.filter (fun c => isWordChar c || c.isWhitespace || c = '-')
  let dashed := collapseRuns Char.isWhitespace '-' kept
  let collapsed := collapseRuns (fun c => c = '-') '-' dashed
  (String.mk collapsed).trim

/-- A still-open section on the working stack of `buildSections`. -/
structure BuildFrame where
  level : Nat
  title : String
  id : String
  content : List MdContent
  children : List MarkdownSection

/-- A frame closes into the `MarkdownSection` it has accumulated. -/
def closeFrame (f : BuildFrame) : MarkdownSection :=
  .mk f.level f.title f.id f.content f.children

/-- The `while (stack.length > 0 && stack[top].level >= L) stack.pop()` loop:
each popped frame closes and attaches to the frame below it, or to the root
list when it was the bottom of the stack. -/
def popGE (L : Nat) (stack : List BuildFrame) (roots : List MarkdownSection) :
    List BuildFrame × List MarkdownSection :=
  match stack with
  | [] => ([], roots)
  | f :: rest =>
    if L ≤ f.level then
      match rest with
      | [] => ([], roots ++ [closeFrame f])
      | g :: gs => popGE L ({ g with children := g.children ++ [closeFrame f] } :: gs) roots
    else (f :: rest, roots)
termination_by stack.length
decreasing_by simp

/-- The guarded flush `if (stack.length > 0 && currentContent.length > 0)`:
pending content moves into the deepest open section. -/
def flushPair (stack : List BuildFrame) (cur : List MdContent) :
    List BuildFrame × List MdContent :=
  match stack, cur with
  | f :: rest, c :: cs => ({ f with content := f.content ++ (c :: cs) } :: rest, [])
  | s, c => (s, c)

/-- One iteration of the token loop in `MarkdownParser.buildSections`. -/
def buildStep (st : List MarkdownSection × List BuildFrame × List MdContent)
    (tok : MdToken) : List MarkdownSection × List BuildFrame × List MdContent :=
  match tok with
  | .heading depth text =>
    let (roots, stack, cur) := st
    let (stack1, cur1) := flushPair stack cur
    let (stack2, roots2) := popGE depth stack1 roots
    (roots2, ⟨depth, text, slugify text, [], []⟩ :: stack2, cur1)
  | t =>
    let (roots, stack, cur) := st
    match tokenToContent t with
    | some c => (roots, stack, cur ++ [c])
    | none => (roots, stack, cur)

/-- `MarkdownParser.buildSections`: fold the token loop, flush the trailing
content into the deepest open section, then close every remaining frame. -/
def buildSections (tokens : List MdToken) : List MarkdownSection :=
  let st := tokens.foldl buildStep ([], [], [])
  let (roots, stack, cur) := st
  let (stack1, _) := flushPair stack cur
  (popGE 0 stack1 roots).2

-- ============================================================================
-- Spec-side definitions (worded from the specification, for the
-- refinement-style claims; to be compared with the source translations)
-- ============================================================================

/-- Spec wording for the example block list: `[PROSE(description) if present,
CODE(code, language=inferred) if present, DATA(dataSql, language="sql",
type="schema") if present, DATA(response, language="json", type="response")
if present] — in that fixed order, each block included only if its source
field is non-empty`. -/
def exampleBlocksSpec (e : Example) : List ContentBlock :=
  ([ if e.description ≠ "" then
       some (createContentBlock ContentBlockType.PROSE e.description)
     else none,
     if e.code ≠ "" then
       some (createContentBlock ContentBlockType.CODE e.code (some (inferLanguage e.code)))
     else none,
     if e.dataSql ≠ "" then
       some (createContentBlock ContentBlockType.DATA e.dataSql (some "sql")
         (some [("type", "schema")]))
     else none,
     if e.response ≠ "" then
       some (createContentBlock ContentBlockType.DATA e.response (some "json")
         (some [("type", "response")]))
     else none ] : List (Option ContentBlock)).filterMap id

/-- Spec wording for the heading-level → node-kind mapping: `level 2 → GROUP
if treatH2AsGroup else SECTION; level 3 → ENTRY; level ≥4 → DETAIL; level 1
or unmapped → SECTION` (GROUP/ENTRY/DETAIL are the spec's names for the
code's CATEGORY/OPERATION/ITEM). -/
def kindForLevelSpec (level : Nat) (treatH2AsGroup : Bool) : DocNodeType :=
  if level = 2 then (if treatH2AsGroup then .CATEGORY else .SECTION)
  else if level = 3 then .OPERATION
  else if 4 ≤ level then .ITEM
  else .SECTION

/-- Spec wording for content accumulation: a non-heading content item goes
into the current deepest open section (a no-op when no section is open). -/
def attachContent (stack : List BuildFrame) (c : MdContent) : List BuildFrame :=
  match stack with
  | [] => []
  | f :: rest => { f with content := f.content ++ [c] } :: rest

/-- The stack rule as the spec words it: on a heading of level L, pop while
the stack top has level ≥ L, attach the new section (at close time) as a
child of the new top or at root level, push it; non-heading content goes
straight into the deepest open section. -/
def specStep (st : List MarkdownSection × List BuildFrame) (tok : MdToken) :
    List MarkdownSection × List BuildFrame :=
  match tok with
  | .heading depth text =>
    let (roots, stack) := st
    let (stack2, roots2) := popGE depth stack roots
    (roots2, ⟨depth, text, slugify text, [], []⟩ :: stack2)
  | t =>
    let (roots, stack) := st
    match tokenToContent t with
    | some c => (roots, attachContent stack c)
    | none => st

/-- The section forest the spec's stack rule produces. -/
def buildSectionsSpec (tokens : List MdToken) : List MarkdownSection :=
  let st := tokens.foldl specStep ([], [])
  (popGE 0 st.2 st.1).2

-- ============================================================================
-- Helper lemmas: strings and joins
-- ============================================================================

theorem strFoldlAppend (l : List String) (s : String) :
    l.foldl (· ++ ·) s = s ++ l.foldl (· ++ ·) "" := by
  induction l generalizing s with
  | nil => simp only [List.foldl]; exact (String.append_empty s).symm
  | cons a t ih =>
    simp only [List.foldl]
    rw [ih (s ++ a), ih ("" ++ a), show ("" : String) ++ a = a from rfl,
      String.append_assoc]

theorem strJoinCons (a : String) (l : List String) :
    String.join (a :: l) = a ++ String.join l := by
  simp only [String.join, List.foldl]
  rw [strFoldlAppend l ("" ++ a)]
  rfl

theorem strJoinSingle (a : String) : String.join [a] = a := by
  rw [strJoinCons]
  exact String.append_empty a

-- ============================================================================
-- Claim theorems
-- ============================================================================

/-- Claim C7: for every document tree and every choice of options, the bytes
of the full-document output are the same whether the assembled text is above
the streaming size threshold (streamed transfer) or below it (single
buffered write); the threshold never changes the produced content.  Stated
for any two thresholds, which covers the shipped 10 MiB one. -/
theorem streaming_threshold_equivalence (root : DocNode) (opts : FormatterOptions)
    (date : String) (t1 t2 : Nat) :
    generateFullDocBytes root opts date t1 = generateFullDocBytes root opts date t2
      ∧ generateFullDoc root opts date = generateFullDocContent root opts date := by
  have hstream : ∀ t : Nat, generateFullDocBytes root opts date t
      = generateFullDocContent root opts date := by
    intro t
    by_cases h : (generateFullDocContent root opts date).length > t
    · simp [generateFullDocBytes, writeFileStreamBytes, streamChunksOf, h, strJoinSingle]
    · simp [generateFullDocBytes, h]
  exact ⟨(hstream t1).trans (hstream t2).symm, hstream STREAM_THRESHOLD⟩

/-- Claim C8: every render writes exactly one modular file per direct
CATEGORY (spec: GROUP) child of ROOT, named
`<outputDir>/<prefix>-<category id>-llms.txt`, and when there is no CATEGORY
child it writes none. -/
theorem modular_docs_one_per_category (root : DocNode) (opts : FormatterOptions) :
    generateModularDocs root opts
      = (root.children.filter (fun c => c.type = DocNodeType.CATEGORY)).map
          (fun c => (opts.outputDir ++ "/" ++ jsOrStr opts.prefixName "documentation"
              ++ "-" ++ c.id ++ "-llms.txt",
            modularFileContent root opts c))
    ∧ (root.children.filter (fun c => c.type = DocNodeType.CATEGORY) = [] →
        generateModularDocs root opts = []) := by
  constructor
  · unfold generateModularDocs
    by_cases h : (root.children.filter (fun c => c.type = DocNodeType.CATEGORY)).length = 0
    · rw [List.length_eq_zero] at h
      simp [h]
    · simp [h]
  · intro h
    unfold generateModularDocs
    simp [h]

/-- Witness for C8 at a root with no CATEGORY child: no modular file. -/
theorem modular_docs_one_per_category_witness :
    generateModularDocs (.mk .ROOT "r" "Root" "" []
        [.mk .OPERATION "op" "Op" "" [] [] []] []) ⟨"out", none, none, none, none⟩ = [] :=
  (modular_docs_one_per_category (.mk .ROOT "r" "Root" "" []
    [.mk .OPERATION "op" "Op" "" [] [] []] []) ⟨"out", none, none, none, none⟩).2 rfl

/-- Claim C4: for every example record, the adapter produces content blocks
in exactly the fixed order PROSE(description), CODE(code, inferred
language), DATA(dataSql, "sql"/schema), DATA(response, "json"/response),
each present iff its source field is non-empty. -/
theorem example_blocks_fixed_order (e : Example) :
    (convertExample e).content = exampleBlocksSpec e := by
  unfold convertExample exampleBlocksSpec
  by_cases h1 : e.description = "" <;> by_cases h2 : e.code = "" <;>
    by_cases h3 : e.dataSql = "" <;> by_cases h4 : e.response = "" <;>
    simp [h1, h2, h3, h4, DocNode.content]

/-- Claim C5: the heading-tree adapter maps heading levels to node kinds as
the spec's fixed policy dictates: level 2 → CATEGORY (GROUP) iff
`mapH2ToCategory`, else SECTION; level 3 → OPERATION (ENTRY); level ≥ 4 →
ITEM (DETAIL); level 1 and unmapped levels → SECTION. -/
theorem heading_level_kind_mapping (sec : MarkdownSection) (flag : Bool) :
    (convertSection sec flag).type = kindForLevelSpec sec.level flag
    ∧ (sec.level = 2 ∧ flag = true → (convertSection sec flag).type = .CATEGORY)
    ∧ (sec.level = 2 ∧ flag = false → (convertSection sec flag).type = .SECTION)
    ∧ (sec.level = 3 → (convertSection sec flag).type = .OPERATION)
    ∧ (4 ≤ sec.level → (convertSection sec flag).type = .ITEM)
    ∧ (sec.level = 1 → (convertSection sec flag).type = .SECTION) := by
  have hmain : (convertSection sec flag).type = kindForLevelSpec sec.level flag := by
    cases sec with
    | mk level title id content children =>
      simp only [convertSection, DocNode.type, MarkdownSection.level, kindForLevelSpec,
        ge_iff_le]
      by_cases h2 : level = 2 <;> by_cases hf : flag <;>
        by_cases h3 : level = 3 <;> by_cases h4 : 4 ≤ level <;>
        simp_all <;> omega
  refine ⟨hmain, ?_, ?_, ?_, ?_, ?_⟩
  · rintro ⟨ha, hb⟩; rw [hmain, ha, hb]; rfl
  · rintro ⟨ha, hb⟩; rw [hmain, ha, hb]; rfl
  · intro h; rw [hmain, h]; rfl
  · intro h
    rw [hmain]
    unfold kindForLevelSpec
    rw [if_neg (by omega), if_neg (by omega), if_pos h]
  · intro h; rw [hmain, h]; rfl

/-- Witness for C5 at a concrete level-2 section with `mapH2ToCategory`. -/
theorem heading_level_kind_mapping_witness :
    (convertSection (.mk 2 "T" "t" [] []) true).type = .CATEGORY :=
  (heading_level_kind_mapping (.mk 2 "T" "t" [] []) true).2.1 ⟨rfl, rfl⟩

theorem collectOps_cons (opMap : List (String × Operation)) (i : String) (rest : List String) :
    collectOps opMap (i :: rest)
      = match jsMapGet opMap i with
        | some op => op :: collectOps opMap rest
        | none => collectOps opMap rest := rfl

theorem convertCategoriesLoop_cons (opMap : List (String × Operation))
    (categoryName : String) (operationIds : List String) (rest : List (String × List String)) :
    convertCategoriesLoop opMap ((categoryName, operationIds) :: rest)
      = if (collectOps opMap operationIds).length = 0 then
          convertCategoriesLoop opMap rest
        else
          DocNode.mk DocNodeType.CATEGORY categoryName categoryName ""
              [] ((collectOps opMap operationIds).map convertOperation) []
            :: convertCategoriesLoop opMap rest := rfl

theorem collectOps_filter_present (opMap : List (String × Operation)) (ids : List String) :
    collectOps opMap (ids.filter (fun i => (jsMapGet opMap i).isSome)) = collectOps opMap ids := by
  induction ids with
  | nil => rfl
  | cons i rest ih =>
    by_cases h : (jsMapGet opMap i).isSome
    · rw [List.filter_cons_of_pos (by simpa using h)]
      rw [collectOps_cons, collectOps_cons, ih]
    · rw [List.filter_cons_of_neg (by simpa using h)]
      rw [Option.not_isSome_iff_eq_none] at h
      rw [collectOps_cons, h, ih]

theorem convertCategoriesLoop_ids (opMap : List (String × Operation))
    (cmap : List (String × List String)) :
    (convertCategoriesLoop opMap cmap).map DocNode.id
      = (cmap.filter (fun c => !(collectOps opMap c.2).isEmpty)).map Prod.fst := by
  induction cmap with
  | nil => rfl
  | cons c rest ih =>
    obtain ⟨categoryName, operationIds⟩ := c
    rw [convertCategoriesLoop_cons]
    by_cases h : (collectOps opMap operationIds).length = 0
    · rw [List.length_eq_zero] at h
      rw [List.filter_cons_of_neg (by simp [h])]
      simpa [h] using ih
    · have hne : collectOps opMap operationIds ≠ [] := by
        intro he; exact h (by simp [he])
      rw [List.filter_cons_of_pos (by simpa [List.isEmpty_iff] using hne)]
      simp only [h, if_false, List.map_cons, DocNode.id]
      rw [ih]

/-- Claim C3: the categorized conversion silently skips operation ids absent
from the spec (deleting them from the category map does not change the
output), and a category resolving to zero operations contributes no CATEGORY
node (the output node ids are exactly the categories with at least one
resolved operation).  The `_operationMap` cache, when present, is the one
`createSpecData` builds. -/
theorem categorized_conversion_lenient (spec : SpecData) (cmap : List (String × List String))
    (hcache : spec.opMapCache = none
      ∨ spec.opMapCache = some (buildOperationMap spec.operations)) :
    convertWithCategories spec
        (cmap.map (fun c =>
          (c.1, c.2.filter (fun i => (jsMapGet (buildOperationMap spec.operations) i).isSome))))
      = convertWithCategories spec cmap
    ∧ (convertWithCategories spec cmap).map DocNode.id
      = (cmap.filter
          (fun c => !(collectOps (buildOperationMap spec.operations) c.2).isEmpty)).map Prod.fst := by
  have hmap : spec.opMapCache.getD (buildOperationMap spec.operations)
      = buildOperationMap spec.operations := by
    rcases hcache with h | h <;> rw [h] <;> rfl
  unfold convertWithCategories
  rw [hmap]
  constructor
  · induction cmap with
    | nil => rfl
    | cons c rest ih =>
      obtain ⟨categoryName, operationIds⟩ := c
      simp only [List.map_cons]
      rw [convertCategoriesLoop_cons, convertCategoriesLoop_cons,
        collectOps_filter_present, ih]
  · exact convertCategoriesLoop_ids _ cmap

/-- Witness for C3: a spec with one operation `select`; the category map
references a missing id (skipped) and an all-missing category (omitted). -/
theorem categorized_conversion_lenient_witness :
    convertWithCategories
        ⟨⟨"demo", "Demo", "", none⟩, [⟨"select", "Select", "", "", []⟩], none⟩
        ([("db", ["select", "missing"]), ("empty", ["nope"])].map (fun c =>
          (c.1, c.2.filter (fun i =>
            (jsMapGet (buildOperationMap [⟨"select", "Select", "", "", []⟩]) i).isSome))))
      = convertWithCategories
          ⟨⟨"demo", "Demo", "", none⟩, [⟨"select", "Select", "", "", []⟩], none⟩
          [("db", ["select", "missing"]), ("empty", ["nope"])]
    ∧ (convertWithCategories
          ⟨⟨"demo", "Demo", "", none⟩, [⟨"select", "Select", "", "", []⟩], none⟩
          [("db", ["select", "missing"]), ("empty", ["nope"])]).map DocNode.id
      = ([("db", ["select", "missing"]), ("empty", ["nope"])].filter
          (fun c => !(collectOps (buildOperationMap [⟨"select", "Select", "", "", []⟩])
            c.2).isEmpty)).map Prod.fst :=
  categorized_conversion_lenient
    ⟨⟨"demo", "Demo", "", none⟩, [⟨"select", "Select", "", "", []⟩], none⟩
    [("db", ["select", "missing"]), ("empty", ["nope"])] (Or.inl rfl)

-- ============================================================================
-- Helper lemmas: formatNode unfolding
-- ============================================================================

/-- The heading line `formatNode` emits for a (non-ROOT) node at a number
path. -/
def headingLineFor (v : DocNode) (nums : List Nat) : String :=
  getHeading v.type nums.length ++ " " ++ numberString nums ++ ". " ++ v.title ++ "\n\n"

theorem formatNode_root_node (id title desc : String) (content : List ContentBlock)
    (children : List DocNode) (md : List (String × MetaVal)) (nums : List Nat) :
    formatNode (.mk .ROOT id title desc content children md) nums
      = formatChildren children [] 1 := rfl

theorem formatNode_ne_root (v : DocNode) (nums : List Nat) (h : v.type ≠ .ROOT) :
    formatNode v nums
      = headingLineFor v nums
        ++ ((if v.description ≠ "" then v.description ++ "\n\n" else "")
          ++ (String.join (v.content.map formatContent)
            ++ formatChildren v.children nums 1)) := by
  cases v with
  | mk t id title desc content children md =>
    simp only [DocNode.type] at h
    simp only [formatNode, if_neg h, headingLineFor, DocNode.type, DocNode.title,
      DocNode.description, DocNode.content, DocNode.children, String.append_assoc]

theorem formatChildren_cons (c : DocNode) (rest : List DocNode) (nums : List Nat) (k : Nat) :
    formatChildren (c :: rest) nums k
      = formatNode c (nums ++ [k]) ++ formatChildren rest nums (k + 1) := rfl

/-- Claim C9: operations and examples with a non-empty description render it
twice in immediate succession — once as the node's summary paragraph and
once as its first PROSE content block — because the adapter stores the
description in both the `description` field and the content list. -/
theorem description_rendered_twice :
    (∀ (op : Operation) (nums : List Nat), op.description ≠ "" →
      ∃ rest, formatNode (convertOperation op) nums
        = headingLineFor (convertOperation op) nums
          ++ ((op.description ++ "\n\n") ++ ((op.description ++ "\n\n") ++ rest)))
    ∧ (∀ (e : Example) (nums : List Nat), e.description ≠ "" →
      ∃ rest, formatNode (convertExample e) nums
        = headingLineFor (convertExample e) nums
          ++ ((e.description ++ "\n\n") ++ ((e.description ++ "\n\n") ++ rest))) := by
  constructor
  · intro op nums h
    refine ⟨String.join ((if op.notes ≠ "" then
        [createContentBlock ContentBlockType.PROSE op.notes] else []).map formatContent)
        ++ formatChildren (op.examples.map convertExample) nums 1, ?_⟩
    rw [formatNode_ne_root _ _ (by simp [convertOperation, DocNode.type])]
    simp only [convertOperation, DocNode.description, DocNode.content, DocNode.children,
      if_pos h, List.singleton_append, List.cons_append, List.nil_append, List.map_cons,
      strJoinCons, formatContent, createContentBlock, String.append_assoc]
  · intro e nums h
    refine ⟨String.join (((if e.code ≠ "" then
          [createContentBlock ContentBlockType.CODE e.code (some (inferLanguage e.code))]
        else [])
        ++ (if e.dataSql ≠ "" then
          [createContentBlock ContentBlockType.DATA e.dataSql (some "sql")
            (some [("type", "schema")])]
        else [])
        ++ (if e.response ≠ "" then
          [createContentBlock ContentBlockType.DATA e.response (some "json")
            (some [("type", "response")])]
        else [])).map formatContent)
        ++ formatChildren [] nums 1, ?_⟩
    rw [formatNode_ne_root _ _ (by simp [convertExample, DocNode.type])]
    simp only [convertExample, DocNode.description, DocNode.content, DocNode.children,
      if_pos h, List.singleton_append, List.cons_append, List.nil_append, List.append_assoc,
      List.map_cons, strJoinCons, formatContent, createContentBlock, String.append_assoc]

/-- Witness for C9 at a concrete operation and a concrete example. -/
theorem description_rendered_twice_witness :
    (∃ rest, formatNode (convertOperation ⟨"op", "Op", "D", "", []⟩) [1]
      = headingLineFor (convertOperation ⟨"op", "Op", "D", "", []⟩) [1]
        ++ (("D" ++ "\n\n") ++ (("D" ++ "\n\n") ++ rest)))
    ∧ (∃ rest, formatNode (convertExample ⟨"ex", "Ex", "", "E", "", "", false⟩) [1, 1]
      = headingLineFor (convertExample ⟨"ex", "Ex", "", "E", "", "", false⟩) [1, 1]
        ++ (("E" ++ "\n\n") ++ (("E" ++ "\n\n") ++ rest))) :=
  ⟨description_rendered_twice.1 ⟨"op", "Op", "D", "", []⟩ [1] (by decide),
   description_rendered_twice.2 ⟨"ex", "Ex", "", "E", "", "", false⟩ [1, 1] (by decide)⟩

/-- Claim C10: in a modular group file, immediately after the group header
the CATEGORY node itself is rendered as a level-1 heading with an empty
number path — the line `# . <group title>` — and only its descendants get
non-empty numbers, starting at 1. -/
theorem modular_group_empty_number_heading (root : DocNode) (opts : FormatterOptions)
    (c : DocNode) (hc : c.type = DocNodeType.CATEGORY) :
    headingLineFor c [] = "# . " ++ (c.title ++ "\n\n")
    ∧ modularFileContent root opts c
      = generateCategoryHeader root opts c
        ++ (headingLineFor c []
          ++ ((if c.description ≠ "" then c.description ++ "\n\n" else "")
            ++ (String.join (c.content.map formatContent)
              ++ formatChildren c.children [] 1)))
    ∧ (c ∈ root.children →
        (opts.outputDir ++ "/" ++ jsOrStr opts.prefixName "documentation"
            ++ "-" ++ c.id ++ "-llms.txt",
          modularFileContent root opts c) ∈ generateModularDocs root opts) := by
  refine ⟨?_, ?_, ?_⟩
  · unfold headingLineFor
    rw [show getHeading c.type (List.length ([] : List Nat)) ++ " " ++ numberString []
        ++ ". " = ("# . " : String) from rfl, String.append_assoc]
  · unfold modularFileContent
    rw [formatNode_ne_root c [] (by simp [hc])]
  · intro hmem
    unfold generateModularDocs
    have hfil : c ∈ root.children.filter (fun x => x.type = DocNodeType.CATEGORY) := by
      rw [List.mem_filter]
      exact ⟨hmem, by simp [hc]⟩
    have hne : ¬((root.children.filter (fun x => x.type = DocNodeType.CATEGORY)).length = 0) := by
      intro h0
      rw [List.length_eq_zero] at h0
      rw [h0] at hfil
      cases hfil
    rw [if_neg hne]
    exact List.mem_map_of_mem _ hfil

/-- Witness for C10 at a one-group tree. -/
theorem modular_group_empty_number_heading_witness :
    headingLineFor (.mk .CATEGORY "db" "DB" "" [] [] []) [] = "# . " ++ ("DB" ++ "\n\n")
    ∧ (("out" ++ "/" ++ jsOrStr none "documentation" ++ "-" ++ "db" ++ "-llms.txt",
        modularFileContent (.mk .ROOT "r" "Root" "" [] [.mk .CATEGORY "db" "DB" "" [] [] []] [])
          ⟨"out", none, none, none, none⟩ (.mk .CATEGORY "db" "DB" "" [] [] []))
      ∈ generateModularDocs (.mk .ROOT "r" "Root" "" [] [.mk .CATEGORY "db" "DB" "" [] [] []] [])
          ⟨"out", none, none, none, none⟩) :=
  ⟨(modular_group_empty_number_heading (.mk .ROOT "r" "Root" "" []
      [.mk .CATEGORY "db" "DB" "" [] [] []] []) ⟨"out", none, none, none, none⟩
      (.mk .CATEGORY "db" "DB" "" [] [] []) rfl).1,
   (modular_group_empty_number_heading (.mk .ROOT "r" "Root" "" []
      [.mk .CATEGORY "db" "DB" "" [] [] []] []) ⟨"out", none, none, none, none⟩
      (.mk .CATEGORY "db" "DB" "" [] [] []) rfl).2.2 (List.mem_singleton.mpr rfl)⟩

-- ============================================================================
-- Claim C2: node metadata and rendering
-- ============================================================================

mutual

/-- Erases the node-level metadata map everywhere in a tree; two trees are
"identical except for node metadata" exactly when their `stripMeta` images
coincide. -/
def stripMeta : DocNode → DocNode
  | .mk t id title desc content children _ =>
    .mk t id title desc content (stripMetaList children) []

def stripMetaList : List DocNode → List DocNode
  | [] => []
  | c :: rest => stripMeta c :: stripMetaList rest

end

/-- Structural induction for the nested `DocNode` tree. -/
theorem DocNode.ind (P : DocNode → Prop)
    (h : ∀ t i ti d c ch m, (∀ x ∈ ch, P x) → P (DocNode.mk t i ti d c ch m)) :
    ∀ n, P n := by
  have key : ∀ (m : Nat) (n : DocNode), sizeOf n ≤ m → P n := by
    intro m
    induction m with
    | zero =>
      intro n hn
      cases n with
      | mk t i ti d c ch md => simp at hn
    | succ m ih =>
      intro n hn
      cases n with
      | mk t i ti d c ch md =>
        apply h
        intro x hx
        apply ih
        have hlt : sizeOf x < sizeOf ch := List.sizeOf_lt_of_mem hx
        have : sizeOf (DocNode.mk t i ti d c ch md) = 1 + sizeOf t + sizeOf i + sizeOf ti
            + sizeOf d + sizeOf c + sizeOf ch + sizeOf md := by simp
        omega
  intro n
  exact key (sizeOf n) n le_rfl

theorem stripMeta_mk (t : DocNodeType) (i ti d : String) (c : List ContentBlock)
    (ch : List DocNode) (m : List (String × MetaVal)) :
    stripMeta (.mk t i ti d c ch m) = .mk t i ti d c (stripMetaList ch) [] := rfl

theorem DocNode.type_stripMeta (n : DocNode) : (stripMeta n).type = n.type := by
  cases n; rfl

theorem DocNode.id_stripMeta (n : DocNode) : (stripMeta n).id = n.id := by
  cases n; rfl

theorem DocNode.title_stripMeta (n : DocNode) : (stripMeta n).title = n.title := by
  cases n; rfl

theorem DocNode.description_stripMeta (n : DocNode) : (stripMeta n).description
    = n.description := by
  cases n; rfl

theorem DocNode.children_stripMeta (n : DocNode) : (stripMeta n).children
    = stripMetaList n.children := by
  cases n; rfl

theorem formatChildren_stripMeta (l : List DocNode) (nums : List Nat) (k : Nat)
    (hl : ∀ c ∈ l, ∀ ns, formatNode (stripMeta c) ns = formatNode c ns) :
    formatChildren (stripMetaList l) nums k = formatChildren l nums k := by
  induction l generalizing k with
  | nil => rfl
  | cons c rest ih =>
    show formatNode (stripMeta c) (nums ++ [k]) ++ formatChildren (stripMetaList rest) nums (k + 1)
      = formatNode c (nums ++ [k]) ++ formatChildren rest nums (k + 1)
    rw [hl c (List.mem_cons_self c rest) (nums ++ [k]),
      ih (k + 1) (fun x hx ns => hl x (List.mem_cons_of_mem c hx) ns)]

theorem formatNode_stripMeta (n : DocNode) : ∀ nums,
    formatNode (stripMeta n) nums = formatNode n nums := by
  induction n using DocNode.ind with
  | h t i ti d c ch m ihc =>
    intro nums
    rw [stripMeta_mk]
    by_cases ht : t = DocNodeType.ROOT
    · subst ht
      rw [formatNode_root_node, formatNode_root_node]
      exact formatChildren_stripMeta ch [] 1 ihc
    · have h1 : (DocNode.mk t i ti d c (stripMetaList ch) []).type ≠ DocNodeType.ROOT := ht
      have h2 : (DocNode.mk t i ti d c ch m).type ≠ DocNodeType.ROOT := ht
      rw [formatNode_ne_root _ nums h1, formatNode_ne_root _ nums h2]
      simp only [headingLineFor, DocNode.type, DocNode.title, DocNode.description,
        DocNode.content, DocNode.children]
      rw [formatChildren_stripMeta ch nums 1 ihc]

/-- Claim C2 as stated is false: two trees identical except for node-level
metadata can render differently, because `generateHeader` interpolates the
ROOT node's `format` metadata entry into the full document.  Concretely,
roots differing only in `metadata = [("format","openref")]` vs `[]` produce
different full-document text. -/
theorem metadata_affects_full_doc_counterexample :
    stripMeta (.mk .ROOT "d" "Doc" "" [] [] [("format", .str "openref")])
      = stripMeta (.mk .ROOT "d" "Doc" "" [] [] [])
    ∧ generateFullDocContent (.mk .ROOT "d" "Doc" "" [] [] [("format", .str "openref")])
        ⟨"out", none, none, none, none⟩ "January 1, 2026"
      ≠ generateFullDocContent (.mk .ROOT "d" "Doc" "" [] [] [])
        ⟨"out", none, none, none, none⟩ "January 1, 2026" := by
  constructor
  · rfl
  · decide

/-- Claim C2, amended: node metadata never affects the tree rendering
(`formatNode`) nor the modular per-group files; the full-document output
depends on node metadata only through the ROOT node's `format` entry in the
optional header comment, so with `includeMetadata = false` the full document
is metadata-independent as well. -/
theorem metadata_never_affects_rendering_amended :
    (∀ (n₁ n₂ : DocNode) (nums : List Nat), stripMeta n₁ = stripMeta n₂ →
      formatNode n₁ nums = formatNode n₂ nums)
    ∧ (∀ (r₁ r₂ c₁ c₂ : DocNode) (opts : FormatterOptions),
        stripMeta r₁ = stripMeta r₂ → stripMeta c₁ = stripMeta c₂ →
        modularFileContent r₁ opts c₁ = modularFileContent r₂ opts c₂)
    ∧ (∀ (r₁ r₂ : DocNode) (opts : FormatterOptions) (date : String),
        opts.includeMetadata = some false → stripMeta r₁ = stripMeta r₂ →
        generateFullDocContent r₁ opts date = generateFullDocContent r₂ opts date) := by
  have hfmt : ∀ (n₁ n₂ : DocNode) (nums : List Nat), stripMeta n₁ = stripMeta n₂ →
      formatNode n₁ nums = formatNode n₂ nums := by
    intro n₁ n₂ nums h
    rw [← formatNode_stripMeta n₁ nums, h, formatNode_stripMeta n₂ nums]
  refine ⟨hfmt, ?_, ?_⟩
  · intro r₁ r₂ c₁ c₂ opts hr hc
    have htitle : r₁.title = r₂.title := by
      rw [← DocNode.title_stripMeta r₁, hr, DocNode.title_stripMeta r₂]
    have hct : c₁.title = c₂.title := by
      rw [← DocNode.title_stripMeta c₁, hc, DocNode.title_stripMeta c₂]
    have hcd : c₁.description = c₂.description := by
      rw [← DocNode.description_stripMeta c₁, hc, DocNode.description_stripMeta c₂]
    unfold modularFileContent generateCategoryHeader
    rw [htitle, hct, hcd, hfmt c₁ c₂ [] hc]
  · intro r₁ r₂ opts date hmeta hr
    have htitle : r₁.title = r₂.title := by
      rw [← DocNode.title_stripMeta r₁, hr, DocNode.title_stripMeta r₂]
    unfold generateFullDocContent generateHeader
    rw [htitle, hfmt r₁ r₂ [] hr, hmeta]
    simp

/-- Witness for the amended C2 at concrete metadata-variant trees. -/
theorem metadata_never_affects_rendering_amended_witness :
    formatNode (.mk .SECTION "a" "A" "" [] [] [("k", .str "v")]) [1]
      = formatNode (.mk .SECTION "a" "A" "" [] [] []) [1] :=
  metadata_never_affects_rendering_amended.1
    (.mk .SECTION "a" "A" "" [] [] [("k", .str "v")])
    (.mk .SECTION "a" "A" "" [] [] []) [1] rfl

-- ============================================================================
-- Claim C1: hierarchical numbering
-- ============================================================================

/-- `isPathTo n path v`: `v` is reached from `n` by descending through the
0-based child positions in `path`. -/
def isPathTo : DocNode → List Nat → DocNode → Prop
  | n, [], v => v = n
  | n, i :: rest, v => ∃ h : i < n.children.length, isPathTo (n.children.get ⟨i, h⟩) rest v

mutual

/-- Every node of this subtree (the node included) has a kind other than
ROOT — the spec's invariant that a tree is rooted at exactly one ROOT. -/
def subtreeNonRoot : DocNode → Bool
  | .mk t _ _ _ _ children _ => (t ≠ DocNodeType.ROOT) && childrenNonRoot children

def childrenNonRoot : List DocNode → Bool
  | [] => true
  | c :: rest => subtreeNonRoot c && childrenNonRoot rest

end

theorem subtreeNonRoot_iff (n : DocNode) :
    subtreeNonRoot n = (decide (n.type ≠ DocNodeType.ROOT) && childrenNonRoot n.children) := by
  cases n; rfl

theorem childrenNonRoot_mem {l : List DocNode} (hl : childrenNonRoot l = true)
    {c : DocNode} (hc : c ∈ l) : subtreeNonRoot c = true := by
  induction l with
  | nil => cases hc
  | cons a rest ih =>
    have h' : (subtreeNonRoot a && childrenNonRoot rest) = true := hl
    rw [Bool.and_eq_true] at h'
    rcases List.mem_cons.mp hc with h | h
    · rw [h]; exact h'.1
    · exact ih h'.2 h

theorem subtreeNonRoot_type {n : DocNode} (h : subtreeNonRoot n = true) :
    n.type ≠ DocNodeType.ROOT := by
  rw [subtreeNonRoot_iff, Bool.and_eq_true, decide_eq_true_eq] at h
  exact h.1

theorem subtreeNonRoot_children {n : DocNode} (h : subtreeNonRoot n = true) :
    childrenNonRoot n.children = true := by
  rw [subtreeNonRoot_iff, Bool.and_eq_true] at h
  exact h.2

/-- Inside the child loop, the child at position `i` contributes its
rendering at number path `nums ++ [k + i]` as one contiguous factor. -/
theorem formatChildren_factor (l : List DocNode) (nums : List Nat) (k : Nat)
    (i : Nat) (hi : i < l.length) :
    ∃ pre post, formatChildren l nums k
      = pre ++ (formatNode (l.get ⟨i, hi⟩) (nums ++ [k + i]) ++ post) := by
  induction l generalizing i k with
  | nil => cases hi
  | cons c rest ih =>
    cases i with
    | zero =>
      exact ⟨"", formatChildren rest nums (k + 1), rfl⟩
    | succ j =>
      have hj : j < rest.length := by simpa using hi
      obtain ⟨pre, post, hp⟩ := ih (k + 1) j hj
      refine ⟨formatNode c (nums ++ [k]) ++ pre, post, ?_⟩
      rw [formatChildren_cons, hp]
      rw [show k + 1 + j = k + (j + 1) by omega]
      rw [String.append_assoc]
      rfl

/-- Descending along a path from a non-ROOT-free subtree, the target node's
heading line at number path `nums ++ (path.map (·+1))` occurs as a factor of
the rendering at `nums`. -/
theorem path_heading (path : List Nat) (n v : DocNode) (nums : List Nat)
    (hsub : subtreeNonRoot n = true) (hp : isPathTo n path v) :
    ∃ pre post, formatNode n nums
      = pre ++ (headingLineFor v (nums ++ path.map (· + 1)) ++ post) := by
  induction path generalizing n nums with
  | nil =>
    have hv : v = n := hp
    subst hv
    refine ⟨"", (if v.description ≠ "" then v.description ++ "\n\n" else "")
      ++ (String.join (v.content.map formatContent)
        ++ formatChildren v.children nums 1), ?_⟩
    rw [formatNode_ne_root v nums (subtreeNonRoot_type hsub)]
    simp only [List.map_nil, List.append_nil]
    rfl
  | cons i rest ih =>
    obtain ⟨hi, hrest⟩ := hp
    have hchild : subtreeNonRoot (n.children.get ⟨i, hi⟩) = true :=
      childrenNonRoot_mem (subtreeNonRoot_children hsub) (n.children.get_mem _ _)
    obtain ⟨pre2, post2, h2⟩ := ih (n.children.get ⟨i, hi⟩) (nums ++ [i + 1]) hchild hrest
    obtain ⟨pre1, post1, h1⟩ := formatChildren_factor n.children nums 1 i hi
    rw [show (1 : Nat) + i = i + 1 by omega] at h1
    rw [h2] at h1
    rw [formatNode_ne_root n nums (subtreeNonRoot_type hsub), h1]
    refine ⟨headingLineFor n nums
      ++ ((if n.description ≠ "" then n.description ++ "\n\n" else "")
        ++ (String.join (n.content.map formatContent) ++ (pre1 ++ pre2))),
      post2 ++ post1, ?_⟩
    simp only [List.map_cons, List.cons_append, List.nil_append, List.append_assoc,
      List.singleton_append, String.append_assoc]

/-- Claim C1: rendering never numbers or heads the ROOT node itself — a ROOT
node renders as exactly its children at fresh paths `[1], [2], …` — and for
any tree whose non-root nodes are all non-ROOT-kind, the node reached by
0-based child positions `path` gets a heading line whose number path is the
1-based positions along `path` (so the Nth depth-1 child gets `N`, its Mth
child `N.M`, recursively, regardless of node kind). -/
theorem formatNode_hierarchical_numbering (root : DocNode)
    (hroot : root.type = DocNodeType.ROOT)
    (hsub : childrenNonRoot root.children = true) :
    (∀ nums, formatNode root nums = formatChildren root.children [] 1)
    ∧ (∀ path v, isPathTo root path v → path ≠ [] →
        ∃ pre post, formatNode root []
          = pre ++ (headingLineFor v (path.map (· + 1)) ++ post)) := by
  have hform : ∀ nums, formatNode root nums = formatChildren root.children [] 1 := by
    intro nums
    cases root with
    | mk t i ti d c ch m =>
      have ht : t = DocNodeType.ROOT := hroot
      subst ht
      rw [formatNode_root_node]
      rfl
  refine ⟨hform, ?_⟩
  intro path v hp hne
  cases path with
  | nil => exact absurd rfl hne
  | cons i rest =>
    obtain ⟨hi, hrest⟩ := hp
    have hchild : subtreeNonRoot (root.children.get ⟨i, hi⟩) = true :=
      childrenNonRoot_mem hsub (root.children.get_mem _ _)
    obtain ⟨pre2, post2, h2⟩ := path_heading rest (root.children.get ⟨i, hi⟩) v
      ([] ++ [i + 1]) hchild hrest
    obtain ⟨pre1, post1, h1⟩ := formatChildren_factor root.children [] 1 i hi
    rw [show (1 : Nat) + i = i + 1 by omega] at h1
    rw [h2] at h1
    rw [hform [], h1]
    refine ⟨pre1 ++ pre2, post2 ++ post1, ?_⟩
    simp only [List.map_cons, List.nil_append, List.cons_append, List.append_assoc,
      List.singleton_append, String.append_assoc]

/-- Witness for C1: a two-level tree; the first depth-1 child's first child
gets number path `1.1`. -/
theorem formatNode_hierarchical_numbering_witness :
    ∃ pre post, formatNode (.mk .ROOT "r" "Root" "" []
        [.mk .SECTION "a" "A" "" [] [.mk .ITEM "b" "B" "" [] [] []] [],
         .mk .OPERATION "c" "C" "" [] [] []] []) []
      = pre ++ (headingLineFor (.mk .ITEM "b" "B" "" [] [] []) ([0, 0].map (· + 1)) ++ post) :=
  (formatNode_hierarchical_numbering (.mk .ROOT "r" "Root" "" []
      [.mk .SECTION "a" "A" "" [] [.mk .ITEM "b" "B" "" [] [] []] [],
       .mk .OPERATION "c" "C" "" [] [] []] []) rfl (by decide)).2
    [0, 0] (.mk .ITEM "b" "B" "" [] [] [])
    ⟨by decide, by exact ⟨by decide, rfl⟩⟩ (by decide)

-- ============================================================================
-- Claim C6: the stack rule of buildSections
-- ============================================================================

/-- Finishing step of `buildSections` expressed on a state triple. -/
def buildFinish (st : List MarkdownSection × List BuildFrame × List MdContent) :
    List MarkdownSection :=
  (popGE 0 (flushPair st.2.1 st.2.2).1 st.1).2

/-- Finishing step of the spec-side algorithm. -/
def specFinish (st : List MarkdownSection × List BuildFrame) : List MarkdownSection :=
  (popGE 0 st.2 st.1).2

theorem buildSections_eq (tokens : List MdToken) :
    buildSections tokens = buildFinish (tokens.foldl buildStep ([], [], [])) := by
  unfold buildSections buildFinish
  rcases h : tokens.foldl buildStep ([], [], []) with ⟨r, s, c⟩
  rcases hf : flushPair s c with ⟨s1, c1⟩
  simp [h, hf]

theorem buildSectionsSpec_eq (tokens : List MdToken) :
    buildSectionsSpec tokens = specFinish (tokens.foldl specStep ([], [])) := rfl

theorem buildStep_heading (roots : List MarkdownSection) (stack : List BuildFrame)
    (cur : List MdContent) (depth : Nat) (text : String) :
    buildStep (roots, stack, cur) (.heading depth text)
      = ((popGE depth (flushPair stack cur).1 roots).2,
         ⟨depth, text, slugify text, [], []⟩ :: (popGE depth (flushPair stack cur).1 roots).1,
         (flushPair stack cur).2) := by
  unfold buildStep
  rcases hf : flushPair stack cur with ⟨s1, c1⟩
  rcases hp : popGE depth s1 roots with ⟨s2, r2⟩
  simp [hf, hp]

theorem specStep_heading (roots : List MarkdownSection) (stack : List BuildFrame)
    (depth : Nat) (text : String) :
    specStep (roots, stack) (.heading depth text)
      = ((popGE depth stack roots).2,
         ⟨depth, text, slugify text, [], []⟩ :: (popGE depth stack roots).1) := by
  unfold specStep
  rcases hp : popGE depth stack roots with ⟨s2, r2⟩
  simp [hp]

theorem buildStep_not_heading (st : List MarkdownSection × List BuildFrame × List MdContent)
    (tok : MdToken) (h : tok.isHeading = false) :
    buildStep st tok
      = match tokenToContent tok with
        | some c => (st.1, st.2.1, st.2.2 ++ [c])
        | none => st := by
  rcases st with ⟨roots, stack, cur⟩
  cases tok <;> first
    | rfl
    | simp [MdToken.isHeading] at h

theorem specStep_not_heading (st : List MarkdownSection × List BuildFrame)
    (tok : MdToken) (h : tok.isHeading = false) :
    specStep st tok
      = match tokenToContent tok with
        | some c => (st.1, attachContent st.2 c)
        | none => st := by
  rcases st with ⟨roots, stack⟩
  cases tok <;> first
    | rfl
    | simp [MdToken.isHeading] at h

theorem flushPair_snd_nil {stack : List BuildFrame} (hne : stack ≠ [])
    (cur : List MdContent) : (flushPair stack cur).2 = [] := by
  cases stack with
  | nil => exact absurd rfl hne
  | cons f rest => cases cur <;> rfl

theorem flushPair_append (stack : List BuildFrame) (cur : List MdContent)
    (c : MdContent) (hne : stack ≠ []) :
    (flushPair stack (cur ++ [c])).1 = attachContent (flushPair stack cur).1 c := by
  cases stack with
  | nil => exact absurd rfl hne
  | cons f rest =>
    cases cur with
    | nil => rfl
    | cons c0 cs => simp [flushPair, attachContent]

/-- Core invariant of the equivalence: a buffered state `(roots, stack, cur)`
with a non-empty stack corresponds to the spec state
`(roots, flushPair stack cur)`. -/
theorem fold_equiv (tokens : List MdToken) :
    ∀ (roots : List MarkdownSection) (stack : List BuildFrame) (cur : List MdContent)
      (stack' : List BuildFrame),
      stack ≠ [] → stack' = (flushPair stack cur).1 →
      buildFinish (tokens.foldl buildStep (roots, stack, cur))
        = specFinish (tokens.foldl specStep (roots, stack')) := by
  induction tokens with
  | nil =>
    intro roots stack cur stack' hne hrel
    subst hrel
    rfl
  | cons tok rest ih =>
    intro roots stack cur stack' hne hrel
    simp only [List.foldl_cons]
    by_cases hh : tok.isHeading = true
    · obtain ⟨depth, text, htok⟩ : ∃ d t, tok = MdToken.heading d t := by
        cases tok <;> simp [MdToken.isHeading] at hh <;> exact ⟨_, _, rfl⟩
      subst htok
      subst hrel
      rw [buildStep_heading, specStep_heading, flushPair_snd_nil hne]
      exact ih _ _ _ _ (List.cons_ne_nil _ _) rfl
    · have hh' : tok.isHeading = false := by simpa using hh
      rw [buildStep_not_heading _ _ hh', specStep_not_heading _ _ hh']
      cases htc : tokenToContent tok with
      | none => exact ih roots stack cur stack' hne hrel
      | some c =>
        apply ih
        · exact hne
        · subst hrel
          exact (flushPair_append stack cur c hne).symm

/-- Claim C6: `buildSections` follows the stack rule — on a heading of level
L it pops while the top's level is ≥ L, attaches the new section to the new
top (or root level), pushes it, and accumulates non-heading content into the
deepest open section — i.e. it coincides with the spec-worded algorithm, on
token streams with no renderable content before the first heading (the only
inputs on which the claim's accumulation rule is defined). -/
theorem buildSections_stack_rule (tokens : List MdToken)
    (hlead : ∀ t ∈ tokens.takeWhile (fun t => !t.isHeading), tokenToContent t = none) :
    buildSections tokens = buildSectionsSpec tokens := by
  rw [buildSections_eq, buildSectionsSpec_eq]
  induction tokens with
  | nil => rfl
  | cons tok rest ih =>
    simp only [List.foldl_cons]
    by_cases hh : tok.isHeading = true
    · obtain ⟨depth, text, htok⟩ : ∃ d t, tok = MdToken.heading d t := by
        cases tok <;> simp [MdToken.isHeading] at hh <;> exact ⟨_, _, rfl⟩
      subst htok
      rw [buildStep_heading, specStep_heading]
      exact fold_equiv rest _ _ _ _ (List.cons_ne_nil _ _) rfl
    · have hh' : tok.isHeading = false := by simpa using hh
      have htw : (tok :: rest).takeWhile (fun t => !t.isHeading)
          = tok :: rest.takeWhile (fun t => !t.isHeading) :=
        List.takeWhile_cons_of_pos (by simp [hh'])
      have htok_none : tokenToContent tok = none :=
        hlead tok (by rw [htw]; exact List.mem_cons_self _ _)
      have hlead' : ∀ t ∈ rest.takeWhile (fun t => !t.isHeading), tokenToContent t = none :=
        fun t ht => hlead t (by rw [htw]; exact List.mem_cons_of_mem _ ht)
      rw [buildStep_not_heading _ _ hh', specStep_not_heading _ _ hh', htok_none]
      exact ih hlead'

/-- Witness for C6 on a concrete token stream exercising the pop rule
(an H2, an H3 with a paragraph, then a sibling H2). -/
theorem buildSections_stack_rule_witness :
    buildSections [.heading 2 "A", .heading 3 "B", .paragraph "P", .heading 2 "C"]
      = buildSectionsSpec [.heading 2 "A", .heading 3 "B", .paragraph "P", .heading 2 "C"] :=
  buildSections_stack_rule
    [.heading 2 "A", .heading 3 "B", .paragraph "P", .heading 2 "C"] (by decide)

example : formatNode (.mk .ROOT "r" "Root" "" [] [.mk .SECTION "a" "A" "" [] [] []] []) []
    = "## 1. A\n\n" := by decide
